import Mathlib

/-
Verification of the staternd state-management core (src/src/state.ts).

Modelling choices (shallow embedding):
* Listener functions and selected values are identified by reference; references
  are modelled as `Nat` ids, and JS `===` becomes equality of ids.
* A `Repository<T>` is its current state plus the EventEmitter's ordered list of
  "change" listener registrations.  `setState` returns, besides the updated
  repository, the list of notification events it emits synchronously: one
  `(listenerId, newState, oldState)` triple per registered listener, in
  registration order.  Listeners themselves are external collaborators, so the
  model logs deliveries instead of running callbacks.
* Node's `emitter.off` (used by the unsubscribe closure returned by `onChange`)
  removes at most one registration: the most recently added instance of the
  given function, a no-op when none is present.
* An asynchronous action outcome is `Except E T`: `ok` for a resolution,
  `error` for a rejection; `throw error` re-raises the same value.
* A `wrapAction` invocation is modelled as the trace it produces: the phase
  events that pass the `isSubscribed` gate of `emitChange`, interleaved with a
  marker recording that the underlying action ran and what it produced.  The
  subscription flag is sampled at the two emission points (it starts `true` and
  `unsubscribe` only ever sets it to `false`).
* The tracker state (`ActionsState`) is an association list from action name to
  counter, built from the object's keys in order; `handleChange` spread-copies
  it and bumps one entry, which is the functional update `applyPhase`, then
  delivers the fresh snapshot to the aggregation callback.  `trackRun` folds a
  stream of `(name, phase)` events, `trackSnapshots` is the list of snapshots
  delivered to the callback, one per event.
-/

namespace Staternd

/-- The repository of `createRepository`: current state plus the "change"
listener registrations of its EventEmitter, in registration order. -/
structure Repo (T : Type) where
  state : T
  listeners : List Nat
deriving DecidableEq

/-- Mirrors `createRepository`: initial state, no listeners. -/
def createRepository {T : Type} (initialState : T) : Repo T :=
  { state := initialState, listeners := [] }

/-- Mirrors `setState`: record the previous state, replace it with `nextState`,
then emit a `(listener, nextState, prevState)` event to every currently
registered listener, in registration order.  No equality check happens. -/
def setState {T : Type} (r : Repo T) (nextState : T) : Repo T × List (Nat × T × T) :=
  ({ r with state := nextState }, r.listeners.map (fun l => (l, nextState, r.state)))

/-- Mirrors `onChange`'s `eventEmitter.on`: append the listener registration. -/
def onChange {T : Type} (r : Repo T) (listener : Nat) : Repo T :=
  { r with listeners := r.listeners ++ [listener] }

/-- Node's `removeListener`: delete the most recently added instance of the
listener (the last occurrence), a no-op when it is not registered. -/
def removeLast : List Nat → Nat → List Nat
  | [], _ => []
  | x :: xs, y =>
    if y ∈ xs then x :: removeLast xs y
    else if x = y then xs else x :: xs

/-- The unsubscribe closure returned by `onChange`:
`() => eventEmitter.off("change", listener)`. -/
def offChange {T : Type} (r : Repo T) (listener : Nat) : Repo T :=
  { r with listeners := removeLast r.listeners listener }

/-- A sequence of `setState` calls, with the concatenated log of all emitted
notification events. -/
def runSetStates {T : Type} (r : Repo T) : List T → Repo T × List (Nat × T × T)
  | [] => (r, [])
  | v :: vs =>
    let step := setState r v
    let rest := runSetStates step.1 vs
    (rest.1, step.2 ++ rest.2)

/-- Mirrors `storifyAction`'s `impl` applied to an action whose settled outcome
is `outcome`: on resolution, call `setState result` (logged in the middle
component as the list of `setState` arguments) and resolve with `unit` (the
`Promise<void>`); on rejection, re-raise the same error with no `setState`. -/
def storifyAction {E T : Type} (r : Repo T) (outcome : Except E T) :
    Repo T × List T × Except E Unit :=
  match outcome with
  | Except.ok result => ((setState r result).1, [result], Except.ok ())
  | Except.error e => (r, [], Except.error e)

/-- The `PromiseState` phases of src/src/state.ts. -/
inductive PromiseState : Type where
  | pending
  | resolved
  | rejected
deriving DecidableEq

/-- One item of a wrapped-invocation trace: either a phase event that reached
the `onChange` callback, or the underlying action running to its outcome. -/
inductive TraceItem (E T : Type) : Type where
  | phaseEvent (p : PromiseState)
  | runAction (outcome : Except E T)

/-- The phase `wrapAction` emits when the awaited action settles. -/
def settlePhase {E T : Type} : Except E T → PromiseState
  | Except.ok _ => PromiseState.resolved
  | Except.error _ => PromiseState.rejected

/-- Mirrors `emitChange`: the event reaches the callback only while the
wrapper's `isSubscribed` flag is still set. -/
def emitChange {E T : Type} (isSubscribed : Bool) (p : PromiseState) :
    List (TraceItem E T) :=
  if isSubscribed then [TraceItem.phaseEvent p] else []

/-- One invocation of a `wrapAction`-wrapped operation, as the trace it
produces and the outcome delivered to the caller: emit `pending` (gated on the
subscription flag at that moment), run the underlying action, emit the settle
phase (gated on the flag at that later moment), and return or re-raise the
underlying outcome unchanged. -/
def wrapActionRun {E T : Type} (subAtPending subAtSettle : Bool)
    (outcome : Except E T) : List (TraceItem E T) × Except E T :=
  (emitChange subAtPending PromiseState.pending
      ++ [TraceItem.runAction outcome]
      ++ emitChange subAtSettle (settlePhase outcome),
    outcome)

/-- The phase events of a trace, i.e. what reaches the wrapper's callback. -/
def phaseEvents {E T : Type} (tr : List (TraceItem E T)) : List PromiseState :=
  tr.filterMap (fun item =>
    match item with
    | TraceItem.phaseEvent p => some p
    | TraceItem.runAction _ => none)

/-- Mirrors `trackActions`' initial `promiseState`: every key of the actions
object mapped to the counter 0, in key order. -/
def initTrackState (keys : List String) : List (String × Int) :=
  keys.map (fun key => (key, 0))

/-- Mirrors `handleChange`'s body: spread-copy the counters and switch on the
phase, incrementing the named entry on `pending` and decrementing it on
`resolved` or `rejected` (no clamping).  `handleChange` is only ever invoked
with a key of the actions object, so only existing entries are touched. -/
def applyPhase (s : List (String × Int)) (name : String) (p : PromiseState) :
    List (String × Int) :=
  s.map (fun kv =>
    if kv.1 = name then
      match p with
      | PromiseState.pending => (kv.1, kv.2 + 1)
      | PromiseState.resolved => (kv.1, kv.2 - 1)
      | PromiseState.rejected => (kv.1, kv.2 - 1)
    else kv)

/-- The net effect of one phase event on the named counter. -/
def phaseDelta : PromiseState → Int
  | PromiseState.pending => 1
  | PromiseState.resolved => -1
  | PromiseState.rejected => -1

/-- Property lookup on the counters object. -/
def getCounter : List (String × Int) → String → Int
  | [], _ => 0
  | kv :: rest, name => if kv.1 = name then kv.2 else getCounter rest name

/-- One `handleChange` call for an incoming `(name, phase)` event. -/
def trackStep (s : List (String × Int)) (ev : String × PromiseState) :
    List (String × Int) :=
  applyPhase s ev.1 ev.2

/-- The tracker's counters after a stream of phase events, starting from the
initial all-zero state of `trackActions`. -/
def trackRun (keys : List String) (events : List (String × PromiseState)) :
    List (String × Int) :=
  events.foldl trackStep (initTrackState keys)

/-- The snapshots delivered to the aggregation callback: `handleChange` passes
the freshly built `newState` to `onChange` once per phase event. -/
def trackSnapshots (s : List (String × Int)) :
    List (String × PromiseState) → List (List (String × Int))
  | [] => []
  | ev :: rest =>
    let next := trackStep s ev
    next :: trackSnapshots next rest

/-- Number of `(name, pending)` events in a stream. -/
def pendingCount (events : List (String × PromiseState)) (name : String) : Nat :=
  (events.filter (fun e => decide (e.1 = name ∧ e.2 = PromiseState.pending))).length

/-- Number of `(name, resolved)` or `(name, rejected)` events in a stream. -/
def settledCount (events : List (String × PromiseState)) (name : String) : Nat :=
  (events.filter (fun e =>
    decide (e.1 = name ∧ (e.2 = PromiseState.resolved ∨ e.2 = PromiseState.rejected)))).length

/-- Mirrors `isEqualRef`, JS `===` on values modelled as reference ids. -/
def isEqualRef (a b : Nat) : Bool := a == b

/-- Mirrors `refresh` inside `useSelector`: recompute the selected value from
the repository state; when it fails the equality test against the cached value,
replace the cache and fire `forceRender` (the `true` flag); otherwise keep the
cache and make no signal. -/
def refresh {T : Type} (selector : T → Nat) (equalityFn : Nat → Nat → Bool)
    (state : T) (cached : Nat) : Nat × Bool :=
  let newSelectedState := selector state
  if !(equalityFn newSelectedState cached) then (newSelectedState, true)
  else (cached, false)

/-- The re-render signals produced by one subscribed selector binding across a
sequence of change notifications: one `refresh` call, hence one `Bool`, per
`setState` notification. -/
def selectorSteps {T : Type} (selector : T → Nat) (equalityFn : Nat → Nat → Bool)
    (cached : Nat) : List T → List Bool
  | [] => []
  | s :: rest =>
    let step := refresh selector equalityFn s cached
    step.2 :: selectorSteps selector equalityFn step.1 rest

theorem filter_map_listener {T : Type} (l : List Nat) (L : Nat) (v s : T) :
    (l.map (fun x => (x, v, s))).filter (fun e => decide (e.1 = L))
      = (l.filter (fun x => decide (x = L))).map (fun x => (x, v, s)) := by
  induction l with
  | nil => rfl
  | cons x xs ih =>
    by_cases hx : x = L
    · simp [List.filter_cons, hx, ih]
    · simp [List.filter_cons, hx, ih]

theorem filter_eq_replicate_count (l : List Nat) (L : Nat) :
    l.filter (fun x => decide (x = L)) = List.replicate (l.count L) L := by
  induction l with
  | nil => rfl
  | cons x xs ih =>
    by_cases hx : x = L
    · subst hx
      simp [List.filter_cons, List.count_cons, ih, List.replicate_succ]
    · simp [List.filter_cons, List.count_cons, hx, ih]

theorem runSetStates_filter {T : Type} (r : Repo T) (vs : List T) (L : Nat)
    (h : r.listeners.count L = 1) :
    ((runSetStates r vs).2.filter (fun e => decide (e.1 = L)))
      = (vs.zip (r.state :: vs)).map (fun p => (L, p.1, p.2)) := by
  induction vs generalizing r with
  | nil => rfl
  | cons v vs ih =>
    have h2 : ({ r with state := v } : Repo T).listeners.count L = 1 := h
    simp only [runSetStates, setState, List.filter_append]
    rw [filter_map_listener, filter_eq_replicate_count, h, ih _ h2]
    simp

/-- C1: every `setState` call replaces the repository state with its argument
and emits exactly one `(new, previous)` notification to every currently
registered listener, in registration order, with no equality filtering; hence a
listener registered once for the whole sequence `v1, ..., vn` observes exactly
the calls `(v1, v0), ..., (vn, v(n-1))` in order, `v0` the initial state. -/
theorem setState_notification_correctness {T : Type} (r : Repo T) (v : T)
    (vs : List T) (L : Nat) (h : r.listeners.count L = 1) :
    (setState r v).1.state = v ∧
    (setState r v).2 = r.listeners.map (fun l => (l, v, r.state)) ∧
    ((runSetStates r vs).2.filter (fun e => decide (e.1 = L)))
      = (vs.zip (r.state :: vs)).map (fun p => (L, p.1, p.2)) :=
  ⟨rfl, rfl, runSetStates_filter r vs L h⟩

theorem setState_notification_correctness_witness :
    ((onChange (createRepository (0 : Nat)) 5).listeners.count 5 = 1) ∧
    ((runSetStates (onChange (createRepository (0 : Nat)) 5) [1, 2]).2.filter
        (fun e => decide (e.1 = 5)))
      = (([1, 2].zip ((0 : Nat) :: [1, 2])).map (fun p => (5, p.1, p.2))) :=
  ⟨by decide,
    (setState_notification_correctness (onChange (createRepository 0) 5) 9 [1, 2] 5
      (by decide)).2.2⟩

theorem map_fst_preserved {f : String × Int → String × Int}
    (hf : ∀ kv, (f kv).1 = kv.1) (s : List (String × Int)) :
    (s.map f).map Prod.fst = s.map Prod.fst := by
  induction s with
  | nil => rfl
  | cons kv rest ih => simp [hf, ih]

theorem applyPhase_keys (s : List (String × Int)) (n : String) (p : PromiseState) :
    (applyPhase s n p).map Prod.fst = s.map Prod.fst := by
  refine map_fst_preserved (fun kv => ?_) s
  by_cases hk : kv.1 = n <;> cases p <;> simp [hk]

theorem getCounter_applyPhase_self (s : List (String × Int)) (name : String)
    (p : PromiseState) (h : name ∈ s.map Prod.fst) :
    getCounter (applyPhase s name p) name = getCounter s name + phaseDelta p := by
  induction s with
  | nil => simp at h
  | cons kv rest ih =>
    by_cases hk : kv.1 = name
    · cases p <;> simp [applyPhase, getCounter, hk, phaseDelta] <;> omega
    · have h2 : name = kv.1 ∨ name ∈ rest.map Prod.fst := by
        have h3 := h
        rw [List.map_cons, List.mem_cons] at h3
        exact h3
      have hmem : name ∈ rest.map Prod.fst := by
        rcases h2 with h1 | h1
        · exact absurd h1.symm hk
        · exact h1
      cases p <;> simp [applyPhase, getCounter, hk] <;>
        simpa [applyPhase] using ih hmem

theorem getCounter_applyPhase_other (s : List (String × Int)) (n name : String)
    (p : PromiseState) (h : name ≠ n) :
    getCounter (applyPhase s n p) name = getCounter s name := by
  have hn2 : ¬(n = name) := fun he => h he.symm
  induction s with
  | nil => rfl
  | cons kv rest ih =>
    by_cases hk : kv.1 = n
    · cases p <;> simp [applyPhase, getCounter, hk, hn2] <;>
        simpa [applyPhase] using ih
    · by_cases hk2 : kv.1 = name
      · cases p <;> simp [applyPhase, getCounter, hk, hk2, h]
      · cases p <;> simp [applyPhase, getCounter, hk, hk2, h] <;>
          simpa [applyPhase] using ih

theorem getCounter_initTrackState (keys : List String) (name : String) :
    getCounter (initTrackState keys) name = 0 := by
  induction keys with
  | nil => rfl
  | cons k ks ih =>
    by_cases hk : k = name
    · simp [initTrackState, getCounter, hk]
    · simp [initTrackState, getCounter, hk]
      simpa [initTrackState] using ih

theorem initTrackState_keys (keys : List String) :
    (initTrackState keys).map Prod.fst = keys := by
  induction keys with
  | nil => rfl
  | cons k ks ih => simpa [initTrackState] using ih

theorem getCounter_foldl_trackStep (events : List (String × PromiseState))
    (s : List (String × Int)) (name : String) (h : name ∈ s.map Prod.fst) :
    getCounter (events.foldl trackStep s) name
      = getCounter s name + (pendingCount events name : Int)
        - (settledCount events name : Int) := by
  induction events generalizing s with
  | nil => simp [pendingCount, settledCount]
  | cons ev evs ih =>
    rcases ev with ⟨n, p⟩
    have hkeys : name ∈ (trackStep s (n, p)).map Prod.fst := by
      rw [trackStep, applyPhase_keys]
      exact h
    rw [List.foldl_cons, ih (trackStep s (n, p)) hkeys]
    by_cases hn : name = n
    · subst hn
      have hstep : getCounter (trackStep s (name, p)) name
          = getCounter s name + phaseDelta p := by
        simp only [trackStep]
        exact getCounter_applyPhase_self s name p h
      rw [hstep]
      cases p <;>
        simp [pendingCount, settledCount, List.filter_cons, phaseDelta] <;>
        omega
    · have hstep : getCounter (trackStep s (n, p)) name = getCounter s name := by
        rw [trackStep]
        exact getCounter_applyPhase_other s n name p hn
      rw [hstep]
      have hn2 : ¬(n = name) := fun he => hn he.symm
      simp [pendingCount, settledCount, List.filter_cons, hn2]

/-- C2: in the tracker, a `pending` phase event increments the named counter by
exactly 1 and a `resolved` or `rejected` event decrements it by exactly 1, with
no clamping, so the counter equals the number of `pending` events minus the
number of settle events for that name; hence it is 0 once every invocation has
settled and equals `k` while `k` invocations are in flight. -/
theorem tracker_counter_invariant (keys : List String)
    (events : List (String × PromiseState)) (name : String) (h : name ∈ keys) :
    getCounter (trackRun keys events) name
        = (pendingCount events name : Int) - (settledCount events name : Int) ∧
    (settledCount events name = pendingCount events name →
      getCounter (trackRun keys events) name = 0) ∧
    (∀ k : Nat, pendingCount events name = settledCount events name + k →
      getCounter (trackRun keys events) name = k) := by
  have hkeys : name ∈ (initTrackState keys).map Prod.fst := by
    rw [initTrackState_keys]
    exact h
  have hmain : getCounter (trackRun keys events) name
      = getCounter (initTrackState keys) name + (pendingCount events name : Int)
        - (settledCount events name : Int) :=
    getCounter_foldl_trackStep events (initTrackState keys) name hkeys
  rw [getCounter_initTrackState] at hmain
  refine ⟨by omega, fun hs => by omega, fun k hk => by omega⟩

theorem tracker_counter_invariant_witness :
    (("inc" : String) ∈ ["inc", "dec"]) ∧
    getCounter
        (trackRun ["inc", "dec"]
          [("inc", PromiseState.pending), ("inc", PromiseState.pending),
            ("inc", PromiseState.resolved)])
        ("inc")
      = (pendingCount
            [("inc", PromiseState.pending), ("inc", PromiseState.pending),
              ("inc", PromiseState.resolved)] ("inc") : Int)
        - (settledCount
            [("inc", PromiseState.pending), ("inc", PromiseState.pending),
              ("inc", PromiseState.resolved)] ("inc") : Int) :=
  ⟨by decide,
    (tracker_counter_invariant ["inc", "dec"]
      [("inc", PromiseState.pending), ("inc", PromiseState.pending),
        ("inc", PromiseState.resolved)] ("inc") (by decide)).1⟩

/-- C9: a phase transition for an action name changes only that name's entry:
every other name's counter is identical before and after `handleChange`, and
the key list of the snapshot is unchanged. -/
theorem tracker_frame_property (s : List (String × Int)) (name other : String)
    (p : PromiseState) (h : other ≠ name) :
    getCounter (applyPhase s name p) other = getCounter s other ∧
    (applyPhase s name p).map Prod.fst = s.map Prod.fst :=
  ⟨getCounter_applyPhase_other s name other p h, applyPhase_keys s name p⟩

theorem tracker_frame_property_witness :
    (("dec" : String) ≠ ("inc" : String)) ∧
    getCounter (applyPhase (initTrackState ["inc", "dec"]) ("inc") PromiseState.pending)
        ("dec")
      = getCounter (initTrackState ["inc", "dec"]) ("dec") :=
  ⟨by decide,
    (tracker_frame_property (initTrackState ["inc", "dec"]) ("inc") ("dec")
      PromiseState.pending (by decide)).1⟩

/-- C10: the `initialState` returned by `trackActions` has exactly the key list
of the input actions mapping, and maps every action name to the counter 0. -/
theorem tracker_initial_state (keys : List String) :
    (initTrackState keys).map Prod.fst = keys ∧
    ∀ name ∈ keys, getCounter (initTrackState keys) name = 0 :=
  ⟨initTrackState_keys keys, fun name _ => getCounter_initTrackState keys name⟩

theorem tracker_initial_state_witness :
    (initTrackState ["inc", "dec"]).map Prod.fst = ["inc", "dec"] ∧
    getCounter (initTrackState ["inc", "dec"]) ("inc") = 0 :=
  ⟨(tracker_initial_state ["inc", "dec"]).1,
    (tracker_initial_state ["inc", "dec"]).2 ("inc") (by decide)⟩

theorem trackSnapshots_length (events : List (String × PromiseState))
    (s : List (String × Int)) :
    (trackSnapshots s events).length = events.length := by
  induction events generalizing s with
  | nil => rfl
  | cons ev evs ih => simp [trackSnapshots, ih]

theorem trackSnapshots_append (events more : List (String × PromiseState))
    (s : List (String × Int)) :
    trackSnapshots s (events ++ more)
      = trackSnapshots s events ++ trackSnapshots (events.foldl trackStep s) more := by
  induction events generalizing s with
  | nil => rfl
  | cons ev evs ih => simp [trackSnapshots, ih, List.foldl_cons]

theorem trackSnapshots_keys (events : List (String × PromiseState))
    (s : List (String × Int)) (keys : List String) (h : s.map Prod.fst = keys) :
    ∀ snap ∈ trackSnapshots s events, snap.map Prod.fst = keys := by
  induction events generalizing s with
  | nil =>
    intro snap hsnap
    simp [trackSnapshots] at hsnap
  | cons ev evs ih =>
    intro snap hsnap
    have hnext : (trackStep s ev).map Prod.fst = keys := by
      rw [trackStep, applyPhase_keys, h]
    simp only [trackSnapshots] at hsnap
    rcases List.mem_cons.mp hsnap with h1 | h1
    · rw [h1]
      exact hnext
    · exact ih (trackStep s ev) hnext snap h1

theorem trackSnapshots_getD (events : List (String × PromiseState))
    (s : List (String × Int)) (i : Nat) (h : i < events.length) :
    (trackSnapshots s events).getD i []
      = (events.take (i + 1)).foldl trackStep s := by
  induction events generalizing s i with
  | nil => simp at h
  | cons ev evs ih =>
    cases i with
    | zero => simp [trackSnapshots]
    | succ j =>
      have hj : j < evs.length := by
        simpa using h
      simpa [trackSnapshots] using ih (trackStep s ev) j hj

/-- C8: on every individual phase transition the aggregation callback receives
one snapshot (one per event, not batched) carrying the full key list of the
input mapping and the counters current after that transition; the update is
persistent: delivering further transitions appends new snapshots and leaves
every previously delivered snapshot exactly as it was. -/
theorem tracker_snapshot_immutability (keys : List String)
    (events more : List (String × PromiseState)) :
    (trackSnapshots (initTrackState keys) events).length = events.length ∧
    (∀ snap ∈ trackSnapshots (initTrackState keys) events,
      snap.map Prod.fst = keys) ∧
    (∀ i : Nat, i < events.length →
      (trackSnapshots (initTrackState keys) events).getD i []
        = trackRun keys (events.take (i + 1))) ∧
    trackSnapshots (initTrackState keys) (events ++ more)
      = trackSnapshots (initTrackState keys) events
        ++ trackSnapshots (trackRun keys events) more :=
  ⟨trackSnapshots_length events (initTrackState keys),
    trackSnapshots_keys events (initTrackState keys) keys (initTrackState_keys keys),
    fun i hi => trackSnapshots_getD events (initTrackState keys) i hi,
    trackSnapshots_append events more (initTrackState keys)⟩

theorem tracker_snapshot_immutability_witness :
    ([(("inc" : String), (1 : Int)), (("dec" : String), (0 : Int))]).map Prod.fst
        = ["inc", "dec"] ∧
    (trackSnapshots (initTrackState ["inc", "dec"])
        [("inc", PromiseState.pending)]).getD 0 []
      = trackRun ["inc", "dec"] [("inc", PromiseState.pending)] :=
  ⟨(tracker_snapshot_immutability ["inc", "dec"] [("inc", PromiseState.pending)]
      []).2.1 [(("inc" : String), (1 : Int)), (("dec" : String), (0 : Int))]
      (by decide),
    (tracker_snapshot_immutability ["inc", "dec"] [("inc", PromiseState.pending)]
      []).2.2.1 0 (by decide)⟩

theorem removeLast_not_mem (l : List Nat) (y : Nat) (h : y ∉ l) :
    removeLast l y = l := by
  induction l with
  | nil => rfl
  | cons x xs ih =>
    have hy : y ∉ xs := fun hm => h (List.mem_cons_of_mem _ hm)
    have hx : ¬(x = y) := fun he => h (he ▸ List.mem_cons_self x xs)
    simp [removeLast, hy, hx]

theorem removeLast_append (l : List Nat) (y : Nat) (h : y ∉ l) :
    removeLast (l ++ [y]) y = l := by
  induction l with
  | nil => simp [removeLast]
  | cons x xs ih =>
    have hy : y ∉ xs := fun hm => h (List.mem_cons_of_mem _ hm)
    simp [removeLast, List.mem_append, ih hy]

theorem filter_events_not_mem {T : Type} (l : List Nat) (L : Nat) (v s : T)
    (h : L ∉ l) :
    ((l.map (fun x => (x, v, s))).filter (fun e => decide (e.1 = L))) = [] := by
  rw [filter_map_listener, filter_eq_replicate_count, List.count_eq_zero.mpr h]
  rfl

/-- C6 under the counterexample-forced amendment: for a listener function with
no other concurrent registration, the unsubscribe closure returned by
`onChange` removes exactly that registration (restoring the repository),
calling it again is a no-op that removes nothing, and the removed listener
receives no further change notifications.  (Without that proviso the claim
fails: see the counterexample.) -/
theorem unsubscribe_single_registration {T : Type} (r : Repo T) (L : Nat)
    (h : L ∉ r.listeners) :
    offChange (onChange r L) L = r ∧
    offChange r L = r ∧
    ∀ v : T, ((setState r v).2.filter (fun e => decide (e.1 = L))) = [] := by
  refine ⟨?_, ?_, fun v => filter_events_not_mem r.listeners L v r.state h⟩
  · show ({ r with listeners := removeLast (r.listeners ++ [L]) L } : Repo T) = r
    rw [removeLast_append r.listeners L h]
  · show ({ r with listeners := removeLast r.listeners L } : Repo T) = r
    rw [removeLast_not_mem r.listeners L h]

theorem unsubscribe_single_registration_witness :
    ((3 : Nat) ∉ (createRepository (0 : Nat)).listeners) ∧
    offChange (onChange (createRepository (0 : Nat)) 3) 3 = createRepository 0 :=
  ⟨by decide, (unsubscribe_single_registration (createRepository 0) 3 (by decide)).1⟩

/-- C6 counterexample: register the same listener function (reference id 7)
twice on a fresh repository and call the unsubscribe closure for it.  After the
first call one registration of 7 is still present and still receives a
notification, so the removed listener does receive further notifications; the
second call then removes that remaining registration, so it is not a no-op and
does remove another registration.  This refutes the claim as stated. -/
theorem unsubscribe_idempotence_counterexample :
    (offChange (onChange (onChange (createRepository (0 : Nat)) 7) 7) 7).listeners
        = [7] ∧
    ((setState (offChange (onChange (onChange (createRepository (0 : Nat)) 7) 7) 7)
        9).2.filter (fun e => decide (e.1 = 7))) = [(7, 9, 0)] ∧
    (offChange (offChange (onChange (onChange (createRepository (0 : Nat)) 7) 7) 7)
        7).listeners = [] := by
  decide

/-- C3: a wrapped invocation emits `(pending)` before the underlying operation
runs, then on resolution emits `(resolved)` and returns the underlying result,
and on rejection emits `(rejected)` and then re-raises the original failure
unchanged. -/
theorem wrapped_action_phase_events {E T : Type} (outcome : Except E T) :
    (wrapActionRun true true outcome).2 = outcome ∧
    (wrapActionRun true true outcome).1
      = [TraceItem.phaseEvent PromiseState.pending, TraceItem.runAction outcome,
          TraceItem.phaseEvent (settlePhase outcome)] ∧
    (∀ v : T, outcome = Except.ok v →
      settlePhase outcome = PromiseState.resolved) ∧
    (∀ e : E, outcome = Except.error e →
      settlePhase outcome = PromiseState.rejected) := by
  refine ⟨rfl, rfl, ?_, ?_⟩
  · intro v hv
    rw [hv]
    rfl
  · intro e he
    rw [he]
    rfl

theorem wrapped_action_phase_events_witness :
    (wrapActionRun true true (Except.ok 5 : Except Nat Nat)).2 = Except.ok 5 ∧
    settlePhase (Except.ok 5 : Except Nat Nat) = PromiseState.resolved ∧
    settlePhase (Except.error 3 : Except Nat Nat) = PromiseState.rejected :=
  ⟨(wrapped_action_phase_events (Except.ok 5)).1,
    (wrapped_action_phase_events (Except.ok 5)).2.2.1 5 rfl,
    (wrapped_action_phase_events (Except.error 3)).2.2.2 3 rfl⟩

/-- C4: a store-bound action that resolves to `v` makes exactly one
`setState v` call (the repository state becomes `v`, its listener list is
untouched) and settles its own promise with no value; one that rejects makes
no `setState` call, leaves the repository exactly unchanged, and propagates
the original failure. -/
theorem store_binding_setState {E T : Type} (r : Repo T) (outcome : Except E T) :
    (∀ v : T, outcome = Except.ok v →
      (storifyAction r outcome).1.state = v ∧
      (storifyAction r outcome).1.listeners = r.listeners ∧
      (storifyAction r outcome).2.1 = [v] ∧
      (storifyAction r outcome).2.2 = Except.ok ()) ∧
    (∀ e : E, outcome = Except.error e →
      (storifyAction r outcome).1 = r ∧
      (storifyAction r outcome).2.1 = [] ∧
      (storifyAction r outcome).2.2 = Except.error e) := by
  constructor
  · intro v hv
    subst hv
    exact ⟨rfl, rfl, rfl, rfl⟩
  · intro e he
    subst he
    exact ⟨rfl, rfl, rfl⟩

theorem store_binding_setState_witness :
    (storifyAction (createRepository (0 : Nat)) (Except.ok 5 : Except Nat Nat)).1.state
        = 5 ∧
    (storifyAction (createRepository (0 : Nat)) (Except.error 3 : Except Nat Nat)).1
        = createRepository 0 :=
  ⟨((store_binding_setState (createRepository 0) (Except.ok 5)).1 5 rfl).1,
    ((store_binding_setState (createRepository 0) (Except.error 3)).2 3 rfl).1⟩

/-- C5: with the default reference equality, each change notification
recomputes the selector; an unchanged selected reference fires no re-render
signal and keeps the cache, a changed reference replaces the cache and fires
the signal; and a subscribed selector produces exactly one signal decision per
`setState` notification. -/
theorem selector_rerender_minimality {T : Type} (selector : T → Nat)
    (state : T) (cached : Nat) (states : List T) :
    (selector state = cached →
      refresh selector isEqualRef state cached = (cached, false)) ∧
    (selector state ≠ cached →
      refresh selector isEqualRef state cached = (selector state, true)) ∧
    (selectorSteps selector isEqualRef cached states).length = states.length := by
  refine ⟨?_, ?_, ?_⟩
  · intro h
    simp [refresh, isEqualRef, h]
  · intro h
    simp [refresh, isEqualRef, h]
  · induction states generalizing cached with
    | nil => rfl
    | cons s ss ih => simp [selectorSteps, ih]

theorem selector_rerender_minimality_witness :
    refresh (fun s => s) isEqualRef 4 4 = (4, false) ∧
    refresh (fun s => s) isEqualRef 5 4 = (5, true) :=
  ⟨(selector_rerender_minimality (fun s => s) 4 4 []).1 rfl,
    (selector_rerender_minimality (fun s => s) 5 4 []).2.1 (by decide)⟩

/-- C7: once a wrapper's unsubscribe has run, later phase transitions of that
wrapped instance (including the settle of an already in-flight invocation) no
longer reach the callback, while the underlying operation still runs and its
outcome is still returned or re-raised unchanged to the caller; a wrapper
unsubscribed before the invocation emits no phase events at all. -/
theorem unsubscribed_wrapper_suppression {E T : Type} (subAtPending : Bool)
    (outcome : Except E T) :
    (wrapActionRun subAtPending false outcome).2 = outcome ∧
    TraceItem.runAction outcome ∈ (wrapActionRun subAtPending false outcome).1 ∧
    phaseEvents (wrapActionRun subAtPending false outcome).1
      = (if subAtPending then [PromiseState.pending] else []) ∧
    phaseEvents (wrapActionRun false false outcome).1 = [] := by
  cases subAtPending <;>
    simp [wrapActionRun, emitChange, phaseEvents]

end Staternd
